import Mathlib

/-!
Verification of the terminal Pomodoro countdown timer.

The repository ships several variants of the same program; the most complete
one (responsive layout with scaled ASCII digits) is the reference for the
layout engine, and both it and the simpler `index.js` variant are modelled
for the countdown loop, since their tick handlers order the completion check
differently.

Shallow embedding conventions:
* JavaScript numbers holding integer counts are modelled as `Int` (or `Nat`
  where the source value is a length).
* The elapsed fraction, a JS float in the source, is modelled as `Rat`;
  `Math.round x` is `⌊x + 1/2⌋` and `Math.floor` of a quotient is `Int.fdiv`.
* `a % b` (JS remainder, sign of the dividend) is `Int.tmod`.
* Strings are modelled as `List Char`; `Array.prototype.join` is a direct
  recursive function `joinWithSep`.
* The event-driven driver (`setTimeout`, `setInterval`, `resize`, `SIGINT`)
  is a step function over an explicit process state, with one event per
  handler invocation; writes to stdout are recorded as an effect list.
-/

namespace Pomodoro

/-- JS `Math.round`: round half toward positive infinity. -/
def jsRound (q : ℚ) : ℤ := ⌊q + 1/2⌋

/-- JS `Math.floor(a / b)` on integer operands. -/
def jsFloorDiv (a b : ℤ) : ℤ := Int.fdiv a b

/-- JS `a % b` on integer operands: remainder with the sign of the dividend. -/
def jsRem (a b : ℤ) : ℤ := Int.tmod a b

/-- `const barMargin = 4;` -/
def barMargin : ℤ := 4

/-- `const barWidth = Math.max(10, terminalWidth - (barMargin * 2) - 2);` -/
def barWidthOf (terminalWidth : ℤ) : ℤ := max 10 (terminalWidth - barMargin * 2 - 2)

/-- `const filledWidth = Math.round(barWidth * progress);` -/
def filledWidth (barWidth : ℤ) (progress : ℚ) : ℤ := jsRound ((barWidth : ℚ) * progress)

/-- `const emptyWidth = barWidth - filledWidth;` -/
def emptyWidth (barWidth : ℤ) (progress : ℚ) : ℤ := barWidth - filledWidth barWidth progress

/-- `const verticalScale = Math.floor((terminalHeight - 4) / 5);` -/
def verticalScale (terminalHeight : ℤ) : ℤ := jsFloorDiv (terminalHeight - 4) 5

/-- `const horizontalScale = Math.floor(terminalWidth / 35);` -/
def horizontalScale (terminalWidth : ℤ) : ℤ := jsFloorDiv terminalWidth 35

/-- `const scale = Math.max(1, Math.min(verticalScale, horizontalScale));` -/
def displayScale (terminalWidth terminalHeight : ℤ) : ℤ :=
  max 1 (min (verticalScale terminalHeight) (horizontalScale terminalWidth))

/-- `const minutes = Math.floor(timeLeftInSeconds / 60);` -/
def redrawMinutes (timeLeft : ℤ) : ℤ := jsFloorDiv timeLeft 60

/-- `const seconds = timeLeftInSeconds % 60;` -/
def redrawSeconds (timeLeft : ℤ) : ℤ := jsRem timeLeft 60

/-- The colon glyph `ASCII_NUMBERS[':']`, also the defensive fallback. -/
def COLON_ART : List (List Char) :=
  ["     ", "  █  ", "     ", "  █  ", "     "].map String.toList

/-- The glyph table `ASCII_NUMBERS`, an association list keyed by character. -/
def ASCII_NUMBERS : List (Char × List (List Char)) :=
  [ ('0', [" ███ ", "█   █", "█ █ █", "█   █", " ███ "].map String.toList),
    ('1', ["  █  ", " ██  ", "  █  ", "  █  ", " ███ "].map String.toList),
    ('2', [" ███ ", "█   █", "   █ ", "  █  ", "█████"].map String.toList),
    ('3', ["████ ", "    █", "  ██ ", "    █", "████ "].map String.toList),
    ('4', ["█   █", "█   █", "█████", "    █", "    █"].map String.toList),
    ('5', ["█████", "█    ", "████ ", "    █", "████ "].map String.toList),
    ('6', [" ███ ", "█    ", "████ ", "█   █", " ███ "].map String.toList),
    ('7', ["█████", "    █", "   █ ", "  █  ", "  █  "].map String.toList),
    ('8', [" ███ ", "█   █", " ███ ", "█   █", " ███ "].map String.toList),
    ('9', [" ███ ", "█   █", " ████", "    █", " ███ "].map String.toList),
    (':', COLON_ART) ]

/-- `ASCII_NUMBERS[char] || ASCII_NUMBERS[':']` — the glyph lookup of the
responsive implementation, with the colon glyph as defensive fallback. -/
def lookupGlyph (c : Char) : List (List Char) :=
  match ASCII_NUMBERS.lookup c with
  | some art => art
  | none => COLON_ART

/-- A glyph is well formed when it is a 5-row block of 5-cell rows. -/
def glyphWF (art : List (List Char)) : Prop :=
  art.length = 5 ∧ ∀ r ∈ art, r.length = 5

instance (art : List (List Char)) : Decidable (glyphWF art) := by
  unfold glyphWF; infer_instance

/-- `row.split('').map(char => char.repeat(scale)).join('')` — one row scaled
horizontally by replicating each cell `scale` times. -/
def hScaleRow (scale : Nat) (row : List Char) : List Char :=
  row.flatMap (fun c => List.replicate scale c)

/-- `scaleAsciiCharacter(charArt, scale)`: identity for `scale ≤ 1`, otherwise
each row is scaled horizontally and pushed `scale` times. -/
def scaleAsciiCharacter (charArt : List (List Char)) (scale : Nat) : List (List Char) :=
  if scale ≤ 1 then charArt
  else charArt.flatMap (fun row => List.replicate scale (hScaleRow scale row))

/-- JS `Array.prototype.join(sep)` on a list of rows. -/
def joinWithSep (sep : List Char) : List (List Char) → List Char
  | [] => []
  | [x] => x
  | x :: y :: rest => x ++ sep ++ joinWithSep sep (y :: rest)

/-- `const scaledArtParts = timeString.split('').map(...)`: the scaled glyph
of each character of the time string. -/
def scaledArtParts (timeString : List Char) (scale : Nat) : List (List (List Char)) :=
  timeString.map (fun c => scaleAsciiCharacter (lookupGlyph c) scale)

/-- `generateScaledTimerRows(timeString, scale)`: scale each character's
glyph, then assemble row `i` (for `i` below `scaledArtParts[0].length`) by
joining the parts' rows `i` with a separator of `scale * 2` spaces. -/
def generateScaledTimerRows (timeString : List Char) (scale : Nat) : List (List Char) :=
  (List.range ((scaledArtParts timeString scale).headD []).length).map
    (fun i => joinWithSep (List.replicate (scale * 2) ' ')
      ((scaledArtParts timeString scale).map (fun part => part.getD i [])))

/-- `const charHeight = ASCII_NUMBERS['0'].length;` (the `index.js` variant). -/
def charHeight : Nat := (lookupGlyph '0').length

/-- The `index.js` row assembly: rows start empty; a character with a glyph
appends its rows plus one space, a character without one is skipped. -/
def timerRowsIndexJs (timeString : List Char) : List (List Char) :=
  timeString.foldl
    (fun rows c =>
      match ASCII_NUMBERS.lookup c with
      | some art => (List.range charHeight).map (fun i => rows.getD i [] ++ art.getD i [] ++ [' '])
      | none => rows)
    (List.replicate charHeight [])

/-- Observable countdown state of one interval callback: the mutable
`timeLeftInSeconds`, whether `process.exit` has run, and how many times the
completion branch (clear interval, restore cursor, message + bell, exit)
has fired. -/
structure CountSt where
  timeLeft : ℤ
  exited : Bool
  completions : Nat
deriving DecidableEq, Repr

/-- Initial countdown state: `timeLeftInSeconds = totalSeconds`. -/
def initCount (total : ℤ) : CountSt := ⟨total, false, 0⟩

/-- One firing of the responsive implementation's interval callback: the
completion test `timeLeftInSeconds <= 0` runs BEFORE the decrement; once the
process has exited no further callback runs. -/
def tickPart001 (s : CountSt) : CountSt :=
  if s.exited then s
  else if s.timeLeft ≤ 0 then
    { s with exited := true, completions := s.completions + 1 }
  else
    { s with timeLeft := s.timeLeft - 1 }

/-- One firing of the `index.js` interval callback: decrement first, redraw,
then test `timeLeftInSeconds <= 0` and complete. -/
def tickIndexJs (s : CountSt) : CountSt :=
  if s.exited then s
  else if s.timeLeft - 1 ≤ 0 then
    { timeLeft := s.timeLeft - 1, exited := true, completions := s.completions + 1 }
  else
    { s with timeLeft := s.timeLeft - 1 }

/-- Events delivered to the driver: the `setTimeout` grace-delay callback,
an interval tick, a terminal resize notification, and `SIGINT`. -/
inductive Ev where
  | graceTimeout
  | tick
  | resize
  | sigint
deriving DecidableEq, Repr

/-- Effects the driver performs on the outside world, in order. -/
inductive Eff where
  | startMsg
  | hideCursor
  | showCursor
  | frame (timeLeft : ℤ)
  | cancelMsg
  | completeMsg
  | exited (code : ℤ)
  | killedByDefaultSignal
deriving DecidableEq, Repr

/-- Driver phase: before the grace timeout fires, while the interval runs,
and after the process has terminated (by exit or by the default signal
disposition). -/
inductive Phase where
  | starting
  | running
  | terminated
deriving DecidableEq, Repr

/-- Whole-process state of the responsive implementation's `main`:
`timeLeftInSeconds`, the phase, which handlers are currently registered,
whether the interval is active, and the ordered effect log. -/
structure ProcSt where
  total : ℤ
  timeLeft : ℤ
  phase : Phase
  sigintInstalled : Bool
  resizeInstalled : Bool
  intervalActive : Bool
  output : List Eff
deriving DecidableEq, Repr

/-- State right after `main` prints the start message and schedules the
grace `setTimeout`: no handler is installed yet and the interval is not
running. -/
def initSt (total : ℤ) : ProcSt :=
  { total := total, timeLeft := total, phase := .starting,
    sigintInstalled := false, resizeInstalled := false, intervalActive := false,
    output := [.startMsg] }

/-- One handler invocation of the responsive implementation's `main`.
`graceTimeout` is the `setTimeout` body: hide the cursor, install the
`SIGINT` handler, install the resize listener, start the interval, draw the
initial frame.  `tick` is the interval callback: when `timeLeftInSeconds ≤ 0`
it clears the interval, removes the resize listener, restores the cursor,
writes the completion message and exits; otherwise it decrements and redraws.
`resize` redraws the current remaining time without touching it.  `sigint`
runs the installed handler (restore cursor, cancellation message, exit 0 —
with no unregistration), or, when no handler is installed, the default
disposition kills the process with no write at all.  After termination every
event is a no-op. -/
def procStep (s : ProcSt) (e : Ev) : ProcSt :=
  if s.phase = .terminated then s
  else
    match e with
    | .graceTimeout =>
        if s.phase = .starting then
          { s with phase := .running, sigintInstalled := true, resizeInstalled := true,
                   intervalActive := true,
                   output := s.output ++ [.hideCursor, .frame s.timeLeft] }
        else s
    | .tick =>
        if s.intervalActive then
          if s.timeLeft ≤ 0 then
            { s with phase := .terminated, intervalActive := false, resizeInstalled := false,
                     output := s.output ++ [.showCursor, .completeMsg, .exited 0] }
          else
            { s with timeLeft := s.timeLeft - 1,
                     output := s.output ++ [.frame (s.timeLeft - 1)] }
        else s
    | .resize =>
        if s.resizeInstalled then
          { s with output := s.output ++ [.frame s.timeLeft] }
        else s
    | .sigint =>
        if s.sigintInstalled then
          { s with phase := .terminated,
                   output := s.output ++ [.showCursor, .cancelMsg, .exited 0] }
        else
          { s with phase := .terminated, output := s.output ++ [.killedByDefaultSignal] }

/-- Run the driver over a sequence of events. -/
def procRun (s : ProcSt) : List Ev → ProcSt
  | [] => s
  | e :: es => procRun (procStep s e) es

end Pomodoro

namespace Pomodoro

lemma floor_half : (⌊(1:ℚ)/2⌋ : ℤ) = 0 := by
  rw [Int.floor_eq_zero_iff]
  constructor <;> norm_num

lemma jsRound_nonneg {q : ℚ} (h : 0 ≤ q) : 0 ≤ jsRound q := by
  unfold jsRound
  refine Int.le_floor.mpr ?_
  push_cast
  linarith

lemma jsRound_le_int {q : ℚ} {z : ℤ} (h : q ≤ (z : ℚ)) : jsRound q ≤ z := by
  unfold jsRound
  have h2 : ⌊q + 1/2⌋ ≤ ⌊(z : ℚ) + 1/2⌋ := Int.floor_le_floor (by linarith)
  rwa [Int.floor_int_add, floor_half, add_zero] at h2

lemma jsRound_int_add_half (z : ℤ) : jsRound ((z : ℚ)) = z := by
  unfold jsRound
  rw [Int.floor_int_add, floor_half, add_zero]

/-- Claim C5: for every `elapsedFraction ∈ [0,1]` and every
`barWidth ≥ 10` (and indeed `barWidthOf columns = max 10 (columns − 2·4 − 2)`
is always `≥ 10`), the filled count `round(barWidth·elapsedFraction)`
satisfies `0 ≤ filledCount ≤ barWidth` and `filledCount + emptyCount =
barWidth`; `elapsedFraction = 0` gives zero filled cells and
`elapsedFraction = 1` a fully filled bar. -/
theorem C5_bar_filled_bounds (bw cols : ℤ) (p : ℚ)
    (hbw : 10 ≤ bw) (hp0 : 0 ≤ p) (hp1 : p ≤ 1) :
    0 ≤ filledWidth bw p ∧ filledWidth bw p ≤ bw ∧
    filledWidth bw p + emptyWidth bw p = bw ∧
    filledWidth bw 0 = 0 ∧ filledWidth bw 1 = bw ∧
    10 ≤ barWidthOf cols := by
  have hbwQ : (0:ℚ) ≤ (bw : ℚ) := by exact_mod_cast le_trans (by norm_num) hbw
  refine ⟨?_, ?_, ?_, ?_, ?_, le_max_left _ _⟩
  · exact jsRound_nonneg (mul_nonneg hbwQ hp0)
  · exact jsRound_le_int (mul_le_of_le_one_right hbwQ hp1)
  · unfold emptyWidth; ring
  · unfold filledWidth
    rw [mul_zero]
    unfold jsRound
    rw [zero_add, floor_half]
  · unfold filledWidth
    rw [mul_one]
    exact jsRound_int_add_half bw
/-- Witness for C5 at `barWidth = 40`, `columns = 80`, `elapsedFraction = 1/2`. -/
theorem C5_bar_filled_bounds_witness :
    (10:ℤ) ≤ 40 ∧ (0:ℚ) ≤ 1/2 ∧ (1/2:ℚ) ≤ 1 ∧
    (0 ≤ filledWidth 40 (1/2) ∧ filledWidth 40 (1/2) ≤ 40 ∧
     filledWidth 40 (1/2) + emptyWidth 40 (1/2) = 40 ∧
     filledWidth 40 0 = 0 ∧ filledWidth 40 1 = 40 ∧
     10 ≤ barWidthOf 80) :=
  ⟨by norm_num, by norm_num, by norm_num,
   C5_bar_filled_bounds 40 80 (1/2) (by norm_num) (by norm_num) (by norm_num)⟩

/-- Claim C2 counterexample: the code performs no clamping.  At
`barWidth = 40` and `elapsedFraction = 11/10` (slightly above 1) the filled
count is `44 > 40` and the empty count is `−4 < 0`, so `'░'.repeat(emptyWidth)`
would throw; the claim that the filled count "never exceeds barWidth" for
out-of-range fractions is false. -/
theorem C2_no_clamp_counterexample :
    filledWidth 40 (11/10) = 44 ∧ emptyWidth 40 (11/10) = -4 := by
  have h : filledWidth 40 (11/10) = 44 := by
    unfold filledWidth jsRound
    rw [Int.floor_eq_iff]
    constructor <;> norm_num
  exact ⟨h, by unfold emptyWidth; rw [h]; norm_num⟩

/-- Claim C2 (amended): `drawDisplay` computes
`filledWidth = round(barWidth·progress)` and
`emptyWidth = barWidth − filledWidth` with no clamping; for every
`elapsedFraction` within `[0,1]` the filled count nevertheless stays in
`[0, barWidth]` and the empty count is nonnegative, so the bar renders, but
fractions outside `[0,1]` are not protected against. -/
theorem C2_bar_safe_on_unit_interval (bw : ℤ) (p : ℚ)
    (hbw : 10 ≤ bw) (hp0 : 0 ≤ p) (hp1 : p ≤ 1) :
    0 ≤ filledWidth bw p ∧ filledWidth bw p ≤ bw ∧ 0 ≤ emptyWidth bw p := by
  have hbwQ : (0:ℚ) ≤ (bw : ℚ) := by exact_mod_cast le_trans (by norm_num) hbw
  have h1 : 0 ≤ filledWidth bw p := jsRound_nonneg (mul_nonneg hbwQ hp0)
  have h2 : filledWidth bw p ≤ bw := jsRound_le_int (mul_le_of_le_one_right hbwQ hp1)
  exact ⟨h1, h2, by unfold emptyWidth; omega⟩
/-- Witness for the amended C2 at `barWidth = 12`, `elapsedFraction = 1/3`. -/
theorem C2_bar_safe_on_unit_interval_witness :
    (10:ℤ) ≤ 12 ∧ (0:ℚ) ≤ 1/3 ∧ (1/3:ℚ) ≤ 1 ∧
    (0 ≤ filledWidth 12 (1/3) ∧ filledWidth 12 (1/3) ≤ 12 ∧
     0 ≤ emptyWidth 12 (1/3)) :=
  ⟨by norm_num, by norm_num, by norm_num,
   C2_bar_safe_on_unit_interval 12 (1/3) (by norm_num) (by norm_num) (by norm_num)⟩

/-- Claim C6: for every viewport with `columns ≥ 1` and `rows ≥ 1`, the digit
scale factor equals `max(1, min(floor((rows−4)/5), floor(columns/35)))` and is
always `≥ 1`; in particular a 1×1 viewport yields scale 1. -/
theorem C6_display_scale (cols rows : ℤ) (_hc : 1 ≤ cols) (_hr : 1 ≤ rows) :
    displayScale cols rows =
      max 1 (min (Int.fdiv (rows - 4) 5) (Int.fdiv cols 35)) ∧
    1 ≤ displayScale cols rows ∧
    displayScale 1 1 = 1 := by
  refine ⟨rfl, le_max_left _ _, ?_⟩
  unfold displayScale verticalScale horizontalScale jsFloorDiv
  decide
/-- Witness for C6 at the default 80×24 viewport. -/
theorem C6_display_scale_witness :
    (1:ℤ) ≤ 80 ∧ (1:ℤ) ≤ 24 ∧
    (displayScale 80 24 =
       max 1 (min (Int.fdiv ((24:ℤ) - 4) 5) (Int.fdiv (80:ℤ) 35)) ∧
     1 ≤ displayScale 80 24 ∧ displayScale 1 1 = 1) :=
  ⟨by norm_num, by norm_num, C6_display_scale 80 24 (by norm_num) (by norm_num)⟩

lemma tickPart001_of_exited {s : CountSt} (h : s.exited = true) : tickPart001 s = s := by
  simp [tickPart001, h]

lemma tickIndexJs_of_exited {s : CountSt} (h : s.exited = true) : tickIndexJs s = s := by
  simp [tickIndexJs, h]

lemma tickPart001_iterate (T : ℤ) (k : ℕ) (hk : (k:ℤ) ≤ T) :
    tickPart001^[k] (initCount T) = ⟨T - k, false, 0⟩ := by
  induction k with
  | zero => simp [initCount]
  | succ n ih =>
    have hn : (n:ℤ) ≤ T := by push_cast at hk ⊢; omega
    rw [Function.iterate_succ_apply', ih hn]
    have hpos : ¬ (T - (n:ℤ) ≤ 0) := by push_cast at hk; omega
    simp only [tickPart001, hpos, if_false, Bool.false_eq_true, if_neg]
    have heq : T - (n:ℤ) - 1 = T - ((n+1 : ℕ) : ℤ) := by push_cast; ring
    rw [CountSt.mk.injEq]
    exact ⟨heq, rfl, rfl⟩

lemma tickIndexJs_iterate (T : ℤ) (k : ℕ) (hk : (k:ℤ) < T) :
    tickIndexJs^[k] (initCount T) = ⟨T - k, false, 0⟩ := by
  induction k with
  | zero => simp [initCount]
  | succ n ih =>
    have hn : (n:ℤ) < T := by push_cast at hk ⊢; omega
    rw [Function.iterate_succ_apply', ih hn]
    have hpos : ¬ (T - (n:ℤ) - 1 ≤ 0) := by push_cast at hk; omega
    simp only [tickIndexJs, hpos, if_false, Bool.false_eq_true, if_neg]
    have heq : T - (n:ℤ) - 1 = T - ((n+1 : ℕ) : ℤ) := by push_cast; ring
    rw [CountSt.mk.injEq]
    exact ⟨heq, rfl, rfl⟩

/-- Claim C1 counterexample: in the responsive implementation the interval
callback tests `timeLeftInSeconds <= 0` BEFORE decrementing, so with
`totalSeconds = 1` the single tick that drives `remainingSeconds` to 0 does
NOT fire the completion branch — completion fires only on the next tick,
contradicting "the Completed transition fires ... at the very tick on which
remainingSeconds reaches 0". -/
theorem C1_counterexample :
    (tickPart001^[1] (initCount 1)).timeLeft = 0 ∧
    (tickPart001^[1] (initCount 1)).completions = 0 := by
  decide

/-- Claim C1 (amended): for every `totalSeconds > 0`, `totalSeconds` ticks
drive `remainingSeconds` from `totalSeconds` down to exactly 0, decrementing
by exactly 1 per tick and never going negative, in both main loops.  In
`index.js` the Completed transition fires exactly once, on the very tick on
which `remainingSeconds` reaches 0.  In the responsive implementation no
completion fires during those `totalSeconds` ticks; Completed fires exactly
once, on tick `totalSeconds + 1`, the first tick that observes
`remainingSeconds = 0`. -/
theorem C1_countdown (T : ℤ) (k m : ℕ) (hT : 0 < T) :
    ((k:ℤ) ≤ T → tickPart001^[k] (initCount T) = ⟨T - k, false, 0⟩) ∧
    (tickPart001^[T.toNat] (initCount T)).timeLeft = 0 ∧
    (tickPart001^[T.toNat] (initCount T)).completions = 0 ∧
    (T.toNat + 1 ≤ m → tickPart001^[m] (initCount T) = ⟨0, true, 1⟩) ∧
    ((k:ℤ) < T → tickIndexJs^[k] (initCount T) = ⟨T - k, false, 0⟩) ∧
    tickIndexJs^[T.toNat] (initCount T) = ⟨0, true, 1⟩ ∧
    (T.toNat ≤ m → tickIndexJs^[m] (initCount T) = ⟨0, true, 1⟩) := by
  have hcast : ((T.toNat : ℤ)) = T := Int.toNat_of_nonneg hT.le
  have hbase : tickPart001^[T.toNat] (initCount T) = ⟨0, false, 0⟩ := by
    rw [tickPart001_iterate T T.toNat (by rw [hcast])]
    simp [hcast]
  have hdone : tickPart001^[T.toNat + 1] (initCount T) = ⟨0, true, 1⟩ := by
    rw [Function.iterate_succ_apply', hbase]
    simp [tickPart001]
  have hidxdone : tickIndexJs^[T.toNat] (initCount T) = ⟨0, true, 1⟩ := by
    obtain ⟨n, hn⟩ : ∃ n, T.toNat = n + 1 := ⟨T.toNat - 1, by omega⟩
    have hnT : (n:ℤ) < T := by omega
    rw [hn, Function.iterate_succ_apply', tickIndexJs_iterate T n hnT]
    have h1 : T - (n:ℤ) = 1 := by omega
    rw [h1]
    simp [tickIndexJs]
  refine ⟨fun hk => tickPart001_iterate T k hk, by rw [hbase], by rw [hbase], ?_,
    fun hk => tickIndexJs_iterate T k hk, hidxdone, ?_⟩
  · intro hm
    obtain ⟨j, rfl⟩ : ∃ j, m = j + (T.toNat + 1) := ⟨m - (T.toNat + 1), by omega⟩
    rw [Function.iterate_add_apply, hdone]
    exact Function.iterate_fixed (tickPart001_of_exited rfl) j
  · intro hm
    obtain ⟨j, rfl⟩ : ∃ j, m = j + T.toNat := ⟨m - T.toNat, by omega⟩
    rw [Function.iterate_add_apply, hidxdone]
    exact Function.iterate_fixed (tickIndexJs_of_exited rfl) j
/-- Witness for the amended C1 at `totalSeconds = 3`, `k = 2`, `m = 5`. -/
theorem C1_countdown_witness :
    (0:ℤ) < 3 ∧
    ((((2:ℕ)):ℤ) ≤ 3 → tickPart001^[2] (initCount 3) = ⟨1, false, 0⟩) ∧
    (tickPart001^[3] (initCount 3)).timeLeft = 0 ∧
    (tickPart001^[3] (initCount 3)).completions = 0 ∧
    (3 + 1 ≤ 5 → tickPart001^[5] (initCount 3) = ⟨0, true, 1⟩) ∧
    ((((2:ℕ)):ℤ) < 3 → tickIndexJs^[2] (initCount 3) = ⟨1, false, 0⟩) ∧
    tickIndexJs^[3] (initCount 3) = ⟨0, true, 1⟩ ∧
    (3 ≤ 5 → tickIndexJs^[5] (initCount 3) = ⟨0, true, 1⟩) :=
  ⟨by decide, C1_countdown 3 2 5 (by decide)⟩

lemma procStep_of_terminated {s : ProcSt} (h : s.phase = .terminated) (e : Ev) :
    procStep s e = s := by
  simp [procStep, h]

lemma procRun_of_terminated {s : ProcSt} (h : s.phase = .terminated) :
    ∀ evs : List Ev, procRun s evs = s
  | [] => rfl
  | e :: es => by
    rw [procRun, procStep_of_terminated h e]
    exact procRun_of_terminated h es

lemma procRun_append (s : ProcSt) (a b : List Ev) :
    procRun s (a ++ b) = procRun (procRun s a) b := by
  induction a generalizing s with
  | nil => rfl
  | cons e es ih => rw [List.cons_append, procRun, procRun, ih]

lemma procStep_grace_eq (s : ProcSt) :
    procStep s Ev.graceTimeout =
      if s.phase = .terminated then s
      else if s.phase = .starting then
        { s with phase := .running, sigintInstalled := true, resizeInstalled := true,
                 intervalActive := true,
                 output := s.output ++ [Eff.hideCursor, Eff.frame s.timeLeft] }
      else s := by
  by_cases h : s.phase = .terminated <;> simp [procStep, h]

lemma procStep_tick_eq (s : ProcSt) :
    procStep s Ev.tick =
      if s.phase = .terminated then s
      else if s.intervalActive = true then
        if s.timeLeft ≤ 0 then
          { s with phase := .terminated, intervalActive := false, resizeInstalled := false,
                   output := s.output ++ [Eff.showCursor, Eff.completeMsg, Eff.exited 0] }
        else
          { s with timeLeft := s.timeLeft - 1,
                   output := s.output ++ [Eff.frame (s.timeLeft - 1)] }
      else s := by
  by_cases h : s.phase = .terminated <;> simp [procStep, h]

lemma procStep_resize_eq (s : ProcSt) :
    procStep s Ev.resize =
      if s.phase = .terminated then s
      else if s.resizeInstalled = true then
        { s with output := s.output ++ [Eff.frame s.timeLeft] }
      else s := by
  by_cases h : s.phase = .terminated <;> simp [procStep, h]

lemma procStep_sigint_eq (s : ProcSt) :
    procStep s Ev.sigint =
      if s.phase = .terminated then s
      else if s.sigintInstalled = true then
        { s with phase := .terminated,
                 output := s.output ++ [Eff.showCursor, Eff.cancelMsg, Eff.exited 0] }
      else
        { s with phase := .terminated, output := s.output ++ [Eff.killedByDefaultSignal] } := by
  by_cases h : s.phase = .terminated <;> simp [procStep, h]

lemma procStep_resize_timeLeft (s : ProcSt) :
    (procStep s Ev.resize).timeLeft = s.timeLeft := by
  rw [procStep_resize_eq]
  split
  · rfl
  · split <;> rfl

lemma procRun_resize_running (s : ProcSt) (h1 : s.phase = .running)
    (h2 : s.resizeInstalled = true) (n : ℕ) :
    procRun s (List.replicate n Ev.resize) =
      { s with output := s.output ++ List.replicate n (Eff.frame s.timeLeft) } := by
  induction n generalizing s with
  | zero => simp [procRun]
  | succ k ih =>
    rw [List.replicate_succ, procRun]
    have hstep : procStep s Ev.resize = { s with output := s.output ++ [Eff.frame s.timeLeft] } := by
      rw [procStep_resize_eq,
          if_neg (by rw [h1]; exact fun hc => Phase.noConfusion hc), if_pos h2]
    rw [hstep]
    rw [ih { s with output := s.output ++ [Eff.frame s.timeLeft] } h1 h2]
    simp [List.replicate_succ, List.append_assoc]

/-- Claim C3 counterexample: in the code the `SIGINT` handler is installed
inside the grace `setTimeout`, so an interrupt arriving during the 1-second
grace delay (state `Starting`) hits the default signal disposition: the
process dies with no cancellation message and no success exit, contradicting
the claimed clean `Cancelled` exit. -/
theorem C3_counterexample :
    (procRun (initSt 60) [Ev.sigint]).phase = Phase.terminated ∧
    Eff.cancelMsg ∉ (procRun (initSt 60) [Ev.sigint]).output ∧
    Eff.exited 0 ∉ (procRun (initSt 60) [Ev.sigint]).output ∧
    Eff.killedByDefaultSignal ∈ (procRun (initSt 60) [Ev.sigint]).output := by
  decide

/-- Claim C3 (amended): once the grace timeout has fired (which installs the
`SIGINT` handler), an interrupt received before any tick — with any number of
resizes in between — produces a clean `Cancelled` exit: cursor restored,
cancellation message written, exit status 0, and no ticks processed
(`timeLeftInSeconds` still equals `totalSeconds`).  An interrupt during the
grace delay itself instead hits the default signal disposition. -/
theorem C3_cancel_after_timeout (T : ℤ) (n : ℕ) (_hT : 0 < T) :
    procRun (initSt T) (Ev.graceTimeout :: (List.replicate n Ev.resize ++ [Ev.sigint])) =
      { total := T, timeLeft := T, phase := .terminated,
        sigintInstalled := true, resizeInstalled := true, intervalActive := true,
        output := [Eff.startMsg, Eff.hideCursor, Eff.frame T] ++
                  List.replicate n (Eff.frame T) ++
                  [Eff.showCursor, Eff.cancelMsg, Eff.exited 0] } := by
  have hstep : procStep (initSt T) Ev.graceTimeout =
      { total := T, timeLeft := T, phase := .running, sigintInstalled := true,
        resizeInstalled := true, intervalActive := true,
        output := [Eff.startMsg, Eff.hideCursor, Eff.frame T] } := rfl
  rw [procRun, hstep, procRun_append, procRun_resize_running _ rfl rfl n]
  rw [procRun, procRun]
  rw [procStep_sigint_eq, if_neg (fun hc => Phase.noConfusion hc), if_pos rfl]
/-- Witness for the amended C3 at `totalSeconds = 60` with two resizes. -/
theorem C3_cancel_after_timeout_witness :
    (0:ℤ) < 60 ∧
    procRun (initSt 60) (Ev.graceTimeout :: (List.replicate 2 Ev.resize ++ [Ev.sigint])) =
      { total := 60, timeLeft := 60, phase := .terminated,
        sigintInstalled := true, resizeInstalled := true, intervalActive := true,
        output := [Eff.startMsg, Eff.hideCursor, Eff.frame 60] ++
                  List.replicate 2 (Eff.frame 60) ++
                  [Eff.showCursor, Eff.cancelMsg, Eff.exited 0] } :=
  ⟨by decide, C3_cancel_after_timeout 60 2 (by decide)⟩

/-- Claim C4 counterexample: after the interrupt is handled in `Running`, the
interval is still active and the resize listener still registered — the
cancellation handler performed no unregistration before its final write
(only the completion branch unregisters), contradicting the claimed
mechanism. -/
theorem C4_counterexample :
    (procRun (initSt 60) [Ev.graceTimeout, Ev.sigint]).intervalActive = true ∧
    (procRun (initSt 60) [Ev.graceTimeout, Ev.sigint]).resizeInstalled = true ∧
    Eff.cancelMsg ∈ (procRun (initSt 60) [Ev.graceTimeout, Ev.sigint]).output := by
  decide

/-- Claim C4 (amended): after the interrupt signal is received, no further
tick transitions and no further resize-triggered redraws ever occur — not
because the handler unregisters anything (it leaves the interval and the
resize listener registered), but because it terminates the process: every
event sequence after the interrupt leaves state and output unchanged. -/
theorem C4_interrupt_stops_everything (s : ProcSt) (evs : List Ev) :
    (procStep s Ev.sigint).phase = Phase.terminated ∧
    procRun (procStep s Ev.sigint) evs = procStep s Ev.sigint ∧
    (procStep s Ev.sigint).intervalActive = s.intervalActive ∧
    (procStep s Ev.sigint).resizeInstalled = s.resizeInstalled := by
  have hterm : (procStep s Ev.sigint).phase = Phase.terminated := by
    rw [procStep_sigint_eq]
    split
    · assumption
    · split <;> rfl
  refine ⟨hterm, procRun_of_terminated hterm evs, ?_, ?_⟩
  · rw [procStep_sigint_eq]
    split
    · rfl
    · split <;> rfl
  · rw [procStep_sigint_eq]
    split
    · rfl
    · split <;> rfl

/-- Claim C8: the resize handler never mutates timer state — for every state
and any number `N` of resize redraws, `remainingSeconds` is unchanged. -/
theorem C8_resize_never_mutates (s : ProcSt) (n : ℕ) :
    (procRun s (List.replicate n Ev.resize)).timeLeft = s.timeLeft := by
  induction n generalizing s with
  | zero => rfl
  | succ k ih =>
    rw [List.replicate_succ, procRun, ih, procStep_resize_timeLeft]

/-- Frames recorded so far carry a nonnegative remaining time, and the
current remaining time is nonnegative. -/
def frameOk (s : ProcSt) : Prop :=
  0 ≤ s.timeLeft ∧ ∀ r : ℤ, Eff.frame r ∈ s.output → 0 ≤ r

lemma procStep_frameOk {s : ProcSt} (h : frameOk s) (e : Ev) : frameOk (procStep s e) := by
  obtain ⟨ht, hf⟩ := h
  cases e
  case graceTimeout =>
    rw [procStep_grace_eq]
    split
    · exact ⟨ht, hf⟩
    split
    · refine ⟨ht, ?_⟩
      intro r hr
      simp only [List.mem_append, List.mem_cons, List.not_mem_nil, or_false] at hr
      rcases hr with hr | hr | hr
      · exact hf r hr
      · exact absurd hr (by simp)
      · injection hr with h; omega
    · exact ⟨ht, hf⟩
  case tick =>
    rw [procStep_tick_eq]
    split
    · exact ⟨ht, hf⟩
    split
    · split
      · refine ⟨ht, ?_⟩
        intro r hr
        simp only [List.mem_append, List.mem_cons, List.not_mem_nil, or_false] at hr
        rcases hr with hr | hr | hr | hr
        · exact hf r hr
        all_goals exact absurd hr (by simp)
      · next hpos =>
        refine ⟨by show (0:ℤ) ≤ s.timeLeft - 1; omega, ?_⟩
        intro r hr
        simp only [List.mem_append, List.mem_cons, List.not_mem_nil, or_false] at hr
        rcases hr with hr | hr
        · exact hf r hr
        · injection hr with h; omega
    · exact ⟨ht, hf⟩
  case resize =>
    rw [procStep_resize_eq]
    split
    · exact ⟨ht, hf⟩
    split
    · refine ⟨ht, ?_⟩
      intro r hr
      simp only [List.mem_append, List.mem_cons, List.not_mem_nil, or_false] at hr
      rcases hr with hr | hr
      · exact hf r hr
      · injection hr with h; omega
    · exact ⟨ht, hf⟩
  case sigint =>
    rw [procStep_sigint_eq]
    split
    · exact ⟨ht, hf⟩
    split
    · refine ⟨ht, ?_⟩
      intro r hr
      simp only [List.mem_append, List.mem_cons, List.not_mem_nil, or_false] at hr
      rcases hr with hr | hr | hr | hr
      · exact hf r hr
      all_goals exact absurd hr (by simp)
    · refine ⟨ht, ?_⟩
      intro r hr
      simp only [List.mem_append, List.mem_cons, List.not_mem_nil, or_false] at hr
      rcases hr with hr | hr
      · exact hf r hr
      · exact absurd hr (by simp)

lemma procRun_frameOk {s : ProcSt} (h : frameOk s) (evs : List Ev) :
    frameOk (procRun s evs) := by
  induction evs generalizing s with
  | nil => exact h
  | cons e es ih => exact ih (procStep_frameOk h e)

/-- Claim C10 (implicit): every frame the driver ever draws — from the grace
timeout, a tick or a resize — is drawn with `remainingSeconds ≥ 0`, hence the
derived display values satisfy `minutes = floor(remaining/60) ≥ 0` and
`seconds = remaining % 60 ∈ [0, 59]`, establishing the layout engine's
precondition on every call. -/
theorem C10_redraw_precondition (T r : ℤ) (evs : List Ev) (hT : 0 < T)
    (hmem : Eff.frame r ∈ (procRun (initSt T) evs).output) :
    0 ≤ r ∧ 0 ≤ redrawMinutes r ∧ 0 ≤ redrawSeconds r ∧ redrawSeconds r ≤ 59 := by
  have hinit : frameOk (initSt T) := by
    refine ⟨hT.le, ?_⟩
    intro r hr
    simp [initSt] at hr
  have hinv := procRun_frameOk hinit evs
  have hr : 0 ≤ r := hinv.2 r hmem
  refine ⟨hr, Int.fdiv_nonneg hr (by norm_num), Int.tmod_nonneg 60 hr, ?_⟩
  have := Int.tmod_lt_of_pos r (show (0:ℤ) < 60 by norm_num)
  unfold redrawSeconds jsRem
  omega
/-- Witness for C10: the frame drawn by the first tick of a 3-second timer. -/
theorem C10_redraw_precondition_witness :
    (0:ℤ) < 3 ∧
    Eff.frame 2 ∈ (procRun (initSt 3) [Ev.graceTimeout, Ev.tick]).output ∧
    (0 ≤ (2:ℤ) ∧ 0 ≤ redrawMinutes 2 ∧ 0 ≤ redrawSeconds 2 ∧ redrawSeconds 2 ≤ 59) :=
  ⟨by decide, by decide, C10_redraw_precondition 3 2 [Ev.graceTimeout, Ev.tick] (by decide) (by decide)⟩

lemma length_flatMap_replicate {α β : Type} (s : ℕ) (g : α → β) (l : List α) :
    (l.flatMap (fun x => List.replicate s (g x))).length = l.length * s := by
  induction l with
  | nil => simp
  | cons a t ih =>
    rw [List.flatMap_cons, List.length_append, List.length_replicate, ih, List.length_cons]
    ring

lemma mem_flatMap_replicate {α β : Type} {s : ℕ} {g : α → β} {l : List α} {y : β}
    (h : y ∈ l.flatMap (fun x => List.replicate s (g x))) : ∃ x ∈ l, y = g x := by
  rcases List.mem_flatMap.mp h with ⟨x, hx, hy⟩
  exact ⟨x, hx, List.eq_of_mem_replicate hy⟩

lemma hScaleRow_length (s : ℕ) (row : List Char) :
    (hScaleRow s row).length = row.length * s :=
  length_flatMap_replicate s (fun c => c) row

lemma table_glyphs_wf : ∀ art ∈ ASCII_NUMBERS.map Prod.snd, glyphWF art := by decide

lemma lookup_mem_snd {l : List (Char × List (List Char))} {c : Char} {art : List (List Char)}
    (h : l.lookup c = some art) : art ∈ l.map Prod.snd := by
  induction l with
  | nil => simp [List.lookup] at h
  | cons p t ih =>
    obtain ⟨k, v⟩ := p
    by_cases hk : (c == k) = true
    · simp [List.lookup, hk] at h
      simp [List.map_cons, h]
    · simp [List.lookup, hk] at h
      simp only [List.map_cons, List.mem_cons]
      exact Or.inr (ih h)

lemma lookupGlyph_wf (c : Char) : glyphWF (lookupGlyph c) := by
  unfold lookupGlyph
  cases h : ASCII_NUMBERS.lookup c with
  | none => decide
  | some art => exact table_glyphs_wf art (lookup_mem_snd h)

lemma scaleAsciiCharacter_shape {art : List (List Char)} (hwf : glyphWF art)
    {s : ℕ} (hs : 1 ≤ s) :
    (scaleAsciiCharacter art s).length = 5 * s ∧
    ∀ row ∈ scaleAsciiCharacter art s, row.length = 5 * s := by
  obtain ⟨hlen, hrows⟩ := hwf
  by_cases h1 : s ≤ 1
  · have hs1 : s = 1 := le_antisymm h1 hs
    subst hs1
    unfold scaleAsciiCharacter
    rw [if_pos (le_refl 1)]
    constructor
    · rw [hlen]
    · intro row hr
      rw [hrows row hr]
  · unfold scaleAsciiCharacter
    rw [if_neg h1]
    constructor
    · rw [length_flatMap_replicate s (hScaleRow s) art, hlen]
    · intro row hr
      obtain ⟨x, hx, rfl⟩ := mem_flatMap_replicate hr
      rw [hScaleRow_length, hrows x hx]

lemma joinWithSep_length (sep : List Char) (L : ℕ) :
    ∀ parts : List (List Char), parts ≠ [] → (∀ p ∈ parts, p.length = L) →
      (joinWithSep sep parts).length = parts.length * L + (parts.length - 1) * sep.length := by
  intro parts
  induction parts with
  | nil => intro h; exact absurd rfl h
  | cons x t ih =>
    intro _ hp
    cases t with
    | nil =>
      have hx := hp x (by simp)
      simp [joinWithSep, hx]
    | cons y rest =>
      have hx := hp x (by simp)
      have ih2 := ih (by simp) (fun p hq => hp p (List.mem_cons_of_mem x hq))
      simp only [joinWithSep, List.length_append, List.length_cons, hx, ih2,
        Nat.add_sub_cancel]
      ring

lemma getD_mem {α : Type} {l : List α} {i : ℕ} {d : α} (h : i < l.length) :
    l.getD i d ∈ l := by
  rw [List.getD_eq_getElem?_getD, List.getElem?_eq_getElem h]
  exact List.getElem_mem h

lemma generateScaledTimerRows_shape (ts : List Char) (s : ℕ) (hs : 1 ≤ s) (hne : ts ≠ []) :
    (generateScaledTimerRows ts s).length = 5 * s ∧
    ∀ row ∈ generateScaledTimerRows ts s,
      row.length = ts.length * (5 * s) + (ts.length - 1) * (s * 2) := by
  obtain ⟨c₀, ts', rfl⟩ : ∃ c₀ ts', ts = c₀ :: ts' := by
    cases ts with
    | nil => exact absurd rfl hne
    | cons a b => exact ⟨a, b, rfl⟩
  have hpart_shape : ∀ part ∈ scaledArtParts (c₀ :: ts') s,
      part.length = 5 * s ∧ ∀ row ∈ part, row.length = 5 * s := by
    intro part hp
    rcases List.mem_map.mp hp with ⟨c, _, rfl⟩
    exact scaleAsciiCharacter_shape (lookupGlyph_wf c) hs
  have hhead : ((scaledArtParts (c₀ :: ts') s).headD []).length = 5 * s := by
    rw [scaledArtParts, List.map_cons, List.headD_cons]
    exact (scaleAsciiCharacter_shape (lookupGlyph_wf c₀) hs).1
  constructor
  · rw [generateScaledTimerRows, List.length_map, List.length_range, hhead]
  · intro row hrow
    rw [generateScaledTimerRows] at hrow
    rcases List.mem_map.mp hrow with ⟨i, hi, rfl⟩
    have hi5 : i < 5 * s := by
      have hmem := List.mem_range.mp hi
      rwa [hhead] at hmem
    have hmaplen :
        ((scaledArtParts (c₀ :: ts') s).map (fun part => part.getD i [])).length
          = (c₀ :: ts').length := by
      rw [List.length_map, scaledArtParts, List.length_map]
    have hne2 : (scaledArtParts (c₀ :: ts') s).map (fun part => part.getD i []) ≠ [] := by
      simp [scaledArtParts]
    have hall : ∀ p ∈ (scaledArtParts (c₀ :: ts') s).map (fun part => part.getD i []),
        p.length = 5 * s := by
      intro p hp
      rcases List.mem_map.mp hp with ⟨part, hpart, rfl⟩
      obtain ⟨hplen, hrows⟩ := hpart_shape part hpart
      exact hrows _ (getD_mem (by rw [hplen]; exact hi5))
    rw [joinWithSep_length _ (5 * s) _ hne2 hall, hmaplen, List.length_replicate]

/-- Claim C7: for every character and every scale `s ≥ 1`, scaling its 5×5
glyph yields a block of exactly `5s` rows, each exactly `5s` cells wide; the
per-character blocks of a (nonempty) time string are joined row-by-row with a
separator of `2s` spaces, so the assembled block has `5s` rows which all have
the same length `5s·len + 2s·(len − 1)`. -/
theorem C7_scaling_shape (s : ℕ) (c : Char) (ts : List Char) (hs : 1 ≤ s) (hne : ts ≠ []) :
    (scaleAsciiCharacter (lookupGlyph c) s).length = 5 * s ∧
    (∀ row ∈ scaleAsciiCharacter (lookupGlyph c) s, row.length = 5 * s) ∧
    (generateScaledTimerRows ts s).length = 5 * s ∧
    (∀ row ∈ generateScaledTimerRows ts s,
        row.length = ts.length * (5 * s) + (ts.length - 1) * (s * 2)) := by
  obtain ⟨h1, h2⟩ := scaleAsciiCharacter_shape (lookupGlyph_wf c) hs
  obtain ⟨h3, h4⟩ := generateScaledTimerRows_shape ts s hs hne
  exact ⟨h1, h2, h3, h4⟩
/-- Witness for C7 at scale 2, character `'3'`, time string `"05:31"`. -/
theorem C7_scaling_shape_witness :
    1 ≤ 2 ∧ (['0', '5', ':', '3', '1'] : List Char) ≠ [] ∧
    ((scaleAsciiCharacter (lookupGlyph '3') 2).length = 5 * 2 ∧
     (∀ row ∈ scaleAsciiCharacter (lookupGlyph '3') 2, row.length = 5 * 2) ∧
     (generateScaledTimerRows ['0', '5', ':', '3', '1'] 2).length = 5 * 2 ∧
     (∀ row ∈ generateScaledTimerRows ['0', '5', ':', '3', '1'] 2,
        row.length = (['0', '5', ':', '3', '1'] : List Char).length * (5 * 2) +
          ((['0', '5', ':', '3', '1'] : List Char).length - 1) * (2 * 2))) :=
  ⟨by decide, by decide, C7_scaling_shape 2 '3' ['0', '5', ':', '3', '1'] (by decide) (by decide)⟩

lemma timerRowsIndexJs_foldl_length (ts : List Char) :
    ∀ rows : List (List Char), rows.length = charHeight →
      (ts.foldl
        (fun rows c =>
          match ASCII_NUMBERS.lookup c with
          | some art =>
              (List.range charHeight).map (fun i => rows.getD i [] ++ art.getD i [] ++ [' '])
          | none => rows)
        rows).length = charHeight := by
  induction ts with
  | nil => intro rows h; exact h
  | cons c ts' ih =>
    intro rows h
    rw [List.foldl_cons]
    cases hc : ASCII_NUMBERS.lookup c with
    | none =>
      simp only [hc]
      exact ih rows h
    | some art =>
      simp only [hc]
      exact ih _ (by rw [List.length_map, List.length_range])

/-- Claim C9: glyph lookup is total — a character missing from the table is
substituted by the `':'` glyph in the responsive implementation (and the
result is always a well-formed 5×5 glyph), or skipped entirely by the
`index.js` row assembly — and in both cases a frame with the full number of
rows is still produced. -/
theorem C9_lookup_total (c : Char) (ts : List Char) (s : ℕ)
    (hs : 1 ≤ s) (hne : ts ≠ []) (hmiss : ASCII_NUMBERS.lookup c = none) :
    lookupGlyph c = COLON_ART ∧
    glyphWF (lookupGlyph c) ∧
    (generateScaledTimerRows ts s).length = 5 * s ∧
    timerRowsIndexJs (ts ++ [c]) = timerRowsIndexJs ts ∧
    (timerRowsIndexJs ts).length = charHeight ∧
    charHeight = 5 := by
  refine ⟨?_, lookupGlyph_wf c, (generateScaledTimerRows_shape ts s hs hne).1, ?_, ?_, by decide⟩
  · unfold lookupGlyph
    rw [hmiss]
  · unfold timerRowsIndexJs
    rw [List.foldl_append, List.foldl_cons, List.foldl_nil]
    simp only [hmiss]
  · exact timerRowsIndexJs_foldl_length ts _ (List.length_replicate _ _)
/-- Witness for C9 with the unknown character `'x'` and time string `"0:"`. -/
theorem C9_lookup_total_witness :
    1 ≤ 1 ∧ (['0', ':'] : List Char) ≠ [] ∧ ASCII_NUMBERS.lookup 'x' = none ∧
    (lookupGlyph 'x' = COLON_ART ∧
     glyphWF (lookupGlyph 'x') ∧
     (generateScaledTimerRows ['0', ':'] 1).length = 5 * 1 ∧
     timerRowsIndexJs (['0', ':'] ++ ['x']) = timerRowsIndexJs ['0', ':'] ∧
     (timerRowsIndexJs ['0', ':']).length = charHeight ∧
     charHeight = 5) :=
  ⟨by decide, by decide, by decide,
   C9_lookup_total 'x' ['0', ':'] 1 (by decide) (by decide) (by decide)⟩

end Pomodoro
